import Mathlib

/-!
Verification of the tax-lot accounting and wash-sale engine of
`modules/tax_calc.py` (function `calculate_stock_gains_and_losses` and its
helpers `get_key`, the `Lot` and `Transaction` dataclasses).

Modelling conventions:
* money amounts and share quantities are `ℚ` (the source uses Python floats;
  all the arithmetic involved is field arithmetic, rendered exactly here);
* calendar dates are day numbers in `ℤ`; `timedelta(days = n)` is `+ n` and
  subtraction of dates yields the day difference directly;
* Python's `defaultdict` keyed by `LotKey` is an association list together
  with a default-returning lookup (`lookupD`) and an insert-or-replace update
  (`setK`) that appends fresh keys at the tail, like dict insertion order;
* the only failure the source can raise while processing a transaction is a
  `ZeroDivisionError` (division by the event quantity); the engine therefore
  runs in `Except String`, failing exactly when that quantity is zero;
* `float(quantity_str)` with its `try/except ValueError` is abstracted as an
  `Option ℚ` field (`quantity_parse`): `none` models an unparseable string,
  and resolution replaces it by `0`, as in the source.
-/

/-- Mirrors the `Lot` dataclass: `total_cost` is set to `quantity * price`
on creation and recomputed when the quantity shrinks; `wash_sale_adjustment`
is declared in the source but never written after initialisation. -/
structure Lot where
  quantity : ℚ
  price : ℚ
  date : ℤ
  is_option : Bool
  wash_sale_adjustment : ℚ
  total_cost : ℚ
deriving DecidableEq

/-- A transaction after the upfront quantity-resolution loop of
`calculate_stock_gains_and_losses` (the `settle_date` column is selected by
the query but never used by the computation, so it is omitted). -/
structure Transaction where
  date : ℤ
  instrument : String
  trans_type : String
  quantity : ℚ
  amount : ℚ
  description : String
deriving DecidableEq

/-- A transaction as built from a fetched row, before quantity resolution:
`quantity_parse` is the result of `float(quantity_str)`, `none` when that
raises `ValueError`. -/
structure RawTransaction where
  date : ℤ
  instrument : String
  trans_type : String
  quantity_parse : Option ℚ
  amount : ℚ
  description : String
deriving DecidableEq

/-- Lines 97-101 of the source: `trans.quantity = float(trans.quantity_str)`,
with `ValueError` turning the quantity into `0.0`. -/
def resolveRaw (r : RawTransaction) : Transaction :=
  { date := r.date
    instrument := r.instrument
    trans_type := r.trans_type
    quantity := r.quantity_parse.getD 0
    amount := r.amount
    description := r.description }

/-- Property `is_option`: BTO, STC and OEXP are option transactions. -/
def Transaction.is_option (t : Transaction) : Bool :=
  t.trans_type == "BTO" || t.trans_type == "STC" || t.trans_type == "OEXP"

/-- Property `is_buy`. -/
def Transaction.is_buy (t : Transaction) : Bool :=
  t.trans_type == "Buy" || t.trans_type == "BTO"

/-- Property `is_sell`. -/
def Transaction.is_sell (t : Transaction) : Bool :=
  t.trans_type == "Sell" || t.trans_type == "STC"

/-- The identifier half of a lot key: `False` in the source for stocks, the
option-contract description for options. -/
inductive KeyId where
  | stock : KeyId
  | opt : String → KeyId
deriving DecidableEq

abbrev LotKey := String × KeyId

/-- The marker text removed from OEXP descriptions in `get_key`. -/
def expMarker : String := "Option Expiration for "

/-- Character-list test that the first list starts the second, used to model
`str.startswith`. -/
def startsList : List Char → List Char → Bool
  | [], _ => true
  | _ :: _, [] => false
  | c :: cs, d :: ds => c == d && startsList cs ds

/-- Python's `str.strip()`: remove leading and trailing whitespace. -/
def pyStrip (s : String) : String :=
  String.mk (((s.data.dropWhile Char.isWhitespace).reverse.dropWhile Char.isWhitespace).reverse)

/-- Mirrors `get_key`: options use `(instrument, description)` with the
"Option Expiration for " marker removed (and the remainder stripped of
surrounding whitespace) for OEXP rows; stocks use `(instrument, False)`. -/
def get_key (t : Transaction) : LotKey :=
  if t.is_option then
    let desc := t.description
    let desc :=
      if t.trans_type == "OEXP" && startsList expMarker.data desc.data then
        pyStrip (String.mk (desc.data.drop expMarker.data.length))
      else desc
    (t.instrument, KeyId.opt desc)
  else
    (t.instrument, KeyId.stock)

/-- Association-list lookup with a default, mirroring `defaultdict` reads. -/
def lookupD {β : Type} : List (LotKey × β) → LotKey → β → β
  | [], _, d => d
  | (k', v) :: rest, k, d => if k' = k then v else lookupD rest k d

/-- Association-list insert-or-replace; a fresh key goes to the tail, like
Python dict insertion order. -/
def setK {β : Type} : List (LotKey × β) → LotKey → β → List (LotKey × β)
  | [], k, v => [(k, v)]
  | (k', v') :: rest, k, v =>
    if k' = k then (k, v) :: rest else (k', v') :: setK rest k v

def hGet (h : List (LotKey × List Lot)) (k : LotKey) : List Lot :=
  lookupD h k []

/-- A pending wash-sale deferral, mirroring the dict pushed onto
`pending_wash_sales[key]`. -/
structure Pending where
  remaining_qty : ℚ
  loss_per_share : ℚ
  expiration : ℤ
deriving DecidableEq

def pGet (p : List (LotKey × List Pending)) (k : LotKey) : List Pending :=
  lookupD p k []

/-- Pointwise additive update of a `defaultdict(float)` accumulator. -/
def addAt (f : String → ℚ) (k : String) (v : ℚ) : String → ℚ :=
  fun x => if x = k then f k + v else f x

/-- Python's `abs`, written so that it evaluates by cases on the sign. -/
def qabs (a : ℚ) : ℚ :=
  if a < 0 then -a else a

/-- Python's binary `min`, which returns its first argument on ties. -/
def qmin (a b : ℚ) : ℚ :=
  if a ≤ b then a else b

/-- Sum of `f` over a list, mirroring the source's `sum(...)` comprehensions
and `+=` accumulation loops. -/
def qsum {α : Type} (l : List α) (f : α → ℚ) : ℚ :=
  (l.map f).sum

/-- One chunk of a FIFO consumption, mirroring the tuples of
`sale_breakdowns` / `expiration_breakdowns`: quantity, cost-basis
contribution, proceeds contribution and holding period in days. -/
structure Chunk where
  qty : ℚ
  basis : ℚ
  proceeds : ℚ
  hp : ℤ
deriving DecidableEq

/-- The FIFO consumption `while` loop (source lines 169-183 and 266-280):
pops whole lots from the head while quantity remains, shrinking the last lot
touched when it is only partially consumed.  In the partial branch the
remainder `remaining - sell_qty` is zero (there `sell_qty = remaining`), so
the source loop exits at its next test and no recursive call is needed. -/
def consumeFIFO (pps : ℚ) (d : ℤ) : ℚ → List Lot → List Chunk × List Lot
  | _, [] => ([], [])
  | remaining, lot :: rest =>
    if 0 < remaining then
      let sell_qty := qmin remaining lot.quantity
      let chunk : Chunk :=
        { qty := sell_qty
          basis := sell_qty * lot.price
          proceeds := sell_qty * pps
          hp := d - lot.date }
      if sell_qty < lot.quantity then
        (([chunk] : List Chunk),
          { lot with
              quantity := lot.quantity - sell_qty
              total_cost := (lot.quantity - sell_qty) * lot.price } :: rest)
      else
        let res := consumeFIFO pps d (remaining - sell_qty) rest
        (chunk :: res.1, res.2)
    else ([], lot :: rest)

/-- Running cost-basis total accumulated by the FIFO loop. -/
def chunkBasisSum (cs : List Chunk) : ℚ :=
  qsum cs (fun c => c.basis)

/-- Replacement shares already on hand: quantity of lots of the key acquired
within the trailing 30-day window (source lines 155-158 and 244-247). -/
def currentHoldingWash (d : ℤ) (lots : List Lot) : ℚ :=
  qsum (lots.filter (fun lot => decide (d - 30 ≤ lot.date) && decide (lot.date ≤ d)))
    (fun lot => lot.quantity)

/-- Total open quantity of a key, used to resolve an OEXP with quantity 0. -/
def openQty (lots : List Lot) : ℚ :=
  qsum lots (fun lot => lot.quantity)

/-- Forward scan of the whole transaction list for the sell branch (source
lines 204-210): buys of the same instrument, matched by description for
option sells and by `is_option` parity for stock sells, strictly after the
event date and at most 30 days later. -/
def futureReplacementSell (ts : List Transaction) (tr : Transaction) : ℚ :=
  qsum (ts.filter (fun u =>
      u.is_buy && (u.instrument == tr.instrument) &&
        (if tr.is_option then u.description == tr.description
         else u.is_option == tr.is_option) &&
        decide (tr.date < u.date) && decide (u.date ≤ tr.date + 30)))
    (fun u => u.quantity)

/-- Forward scan for the OEXP branch (source lines 251-257): the candidate
must itself be an option transaction and its description is compared with
the OEXP row's raw description (marker text not removed). -/
def futureReplacementOexp (ts : List Transaction) (tr : Transaction) : ℚ :=
  qsum (ts.filter (fun u =>
      u.is_buy && (u.instrument == tr.instrument) &&
        (if u.is_option then u.description == tr.description else false) &&
        decide (tr.date < u.date) && decide (u.date ≤ tr.date + 30)))
    (fun u => u.quantity)

/-- The buy-branch loop over `pending_wash_sales[key][:]` (source lines
134-140): every deferral not yet expired absorbs `min(buy_qty, remaining)`
shares at its per-share loss, is dropped when exhausted, and the absorbed
cost-basis adjustments are totalled. -/
def applyPending (q : ℚ) (d : ℤ) : List Pending → ℚ × List Pending
  | [] => (0, [])
  | p :: rest =>
    if d ≤ p.expiration then
      let shares_to_apply := qmin q p.remaining_qty
      let adj := shares_to_apply * p.loss_per_share
      let rem := p.remaining_qty - shares_to_apply
      let res := applyPending q d rest
      if rem ≤ 0 then (adj + res.1, res.2)
      else (adj + res.1, { p with remaining_qty := rem } :: res.2)
    else
      let res := applyPending q d rest
      (res.1, p :: res.2)

/-- The per-instrument accumulators and key-partitioned state mutated by the
processing loop. -/
structure EngineState where
  holdings : List (LotKey × List Lot)
  pending : List (LotKey × List Pending)
  realized_gains : String → ℚ
  realized_losses : String → ℚ
  disallowed_losses : String → ℚ
  gross_sales : String → ℚ
  gross_cost_basis : String → ℚ
  long_term_gain : String → ℚ
  short_term_gain : String → ℚ
  gross_long_term_sales : String → ℚ
  gross_short_term_sales : String → ℚ
  gross_long_term_cost_basis : String → ℚ
  gross_short_term_cost_basis : String → ℚ

def initState : EngineState :=
  { holdings := []
    pending := []
    realized_gains := fun _ => 0
    realized_losses := fun _ => 0
    disallowed_losses := fun _ => 0
    gross_sales := fun _ => 0
    gross_cost_basis := fun _ => 0
    long_term_gain := fun _ => 0
    short_term_gain := fun _ => 0
    gross_long_term_sales := fun _ => 0
    gross_short_term_sales := fun _ => 0
    gross_long_term_cost_basis := fun _ => 0
    gross_short_term_cost_basis := fun _ => 0 }

/-- One iteration of the holding-period classification loop (source lines
192-201 and 287-296). -/
def applyChunk (i : String) (c : Chunk) (s : EngineState) : EngineState :=
  let g := c.proceeds - c.basis
  if 365 ≤ c.hp then
    { s with
        long_term_gain := addAt s.long_term_gain i g
        gross_long_term_sales := addAt s.gross_long_term_sales i c.proceeds
        gross_long_term_cost_basis := addAt s.gross_long_term_cost_basis i c.basis }
  else
    { s with
        short_term_gain := addAt s.short_term_gain i g
        gross_short_term_sales := addAt s.gross_short_term_sales i c.proceeds
        gross_short_term_cost_basis := addAt s.gross_short_term_cost_basis i c.basis }

/-- The whole classification loop over the breakdown list. -/
def applyBreakdowns (i : String) : List Chunk → EngineState → EngineState
  | [], s => s
  | c :: cs, s => applyBreakdowns i cs (applyChunk i c s)

/-- The closing-event body shared verbatim by the sell branch (source lines
162-234) and the OEXP branch (source lines 260-319): consume FIFO, record
gross totals and holding-period splits, then realize or defer the result.
Callable only with the division by `qty` already known to succeed. -/
def settleCloseOk (instr : String) (key : LotKey) (d : ℤ)
    (qty amount repl : ℚ) (s : EngineState) : EngineState :=
  let proceeds := qabs amount
  let pps := proceeds / qty
  let res := consumeFIFO pps d qty (hGet s.holdings key)
  let chunks := res.1
  let cost_basis := chunkBasisSum chunks
  let net := proceeds - cost_basis
  let s1 := { s with
      holdings := setK s.holdings key res.2
      gross_sales := addAt s.gross_sales instr proceeds
      gross_cost_basis := addAt s.gross_cost_basis instr cost_basis }
  let s2 := applyBreakdowns instr chunks s1
  if net < 0 then
    if 0 < repl then
      let deferred := qmin qty repl
      let lps := (-net) / qty
      let s3 := { s2 with
          pending := setK s2.pending key
            (pGet s2.pending key ++ [⟨deferred, lps, d + 30⟩])
          disallowed_losses := addAt s2.disallowed_losses instr (deferred * lps) }
      if 0 < qty - deferred then
        { s3 with realized_losses := addAt s3.realized_losses instr (net + deferred * lps) }
      else s3
    else
      { s2 with realized_losses := addAt s2.realized_losses instr net }
  else
    { s2 with realized_gains := addAt s2.realized_gains instr net }

/-- Closing-event body in `Except`: in the source both divisions inside the
branch divide by the event quantity, so the branch raises exactly when that
quantity is zero. -/
def settleClose (instr : String) (key : LotKey) (d : ℤ)
    (qty amount repl : ℚ) (s : EngineState) : Except String EngineState :=
  if qty = 0 then Except.error "ZeroDivisionError"
  else Except.ok (settleCloseOk instr key d qty amount repl s)

/-- The buy branch (source lines 130-149), with the division by
`trans.quantity` known to succeed. -/
def processBuyOk (s : EngineState) (t : Transaction) : EngineState :=
  let key := get_key t
  let pres := applyPending t.quantity t.date (pGet s.pending key)
  let total_cost := qabs t.amount + pres.1
  let price_per_unit := total_cost / t.quantity
  let new_lot : Lot :=
    { quantity := t.quantity
      price := price_per_unit
      date := t.date
      is_option := t.is_option
      wash_sale_adjustment := 0
      total_cost := t.quantity * price_per_unit }
  { s with
      pending := setK s.pending key pres.2
      holdings := setK s.holdings key (hGet s.holdings key ++ [new_lot]) }

/-- The buy branch in `Except`: `total_cost / trans.quantity` raises exactly
when the quantity is zero. -/
def processBuy (s : EngineState) (t : Transaction) : Except String EngineState :=
  if t.quantity = 0 then Except.error "ZeroDivisionError"
  else Except.ok (processBuyOk s t)

/-- OEXP quantity resolution (source lines 239-241): an expiration with
quantity 0 closes everything open for its key.  For every other transaction
this is the transaction's own quantity. -/
def resolvedQty (s : EngineState) (t : Transaction) : ℚ :=
  if t.trans_type == "OEXP" && decide (t.quantity = 0) then
    openQty (hGet s.holdings (get_key t))
  else t.quantity

/-- The replacement quantity of a closing event: unsold trailing-window
holdings plus the forward scan (whose predicate differs between the sell and
OEXP branches). -/
def replacementQty (ts : List Transaction) (s : EngineState) (t : Transaction) : ℚ :=
  let qty := resolvedQty s t
  let chw := currentHoldingWash t.date (hGet s.holdings (get_key t))
  let used_from_current := qmin qty chw
  let fr := if t.is_sell then futureReplacementSell ts t else futureReplacementOexp ts t
  (chw - used_from_current) + fr

/-- The derived net gain/loss of a closing event, as the source computes it:
proceeds minus the FIFO cost basis of the consumed chunks. -/
def netGainLoss (s : EngineState) (t : Transaction) : ℚ :=
  qabs t.amount -
    chunkBasisSum (consumeFIFO (qabs t.amount / resolvedQty s t) t.date
      (resolvedQty s t) (hGet s.holdings (get_key t))).1

/-- One iteration of the processing loop (source lines 125-320).  `ts` is
the full transaction list, needed by the forward wash-sale scans.  A
transaction matching none of the tested codes (for example BCXL) falls
through every branch and leaves the state untouched. -/
def stepT (ts : List Transaction) (s : EngineState) (t : Transaction) :
    Except String EngineState :=
  if t.is_buy then processBuy s t
  else if t.is_sell || (t.trans_type == "OEXP") then
    settleClose t.instrument (get_key t) t.date (resolvedQty s t) t.amount
      (replacementQty ts s t) s
  else Except.ok s

/-- The processing loop over a suffix of the transaction list, stopping at
the first uncaught error. -/
def runList (ts : List Transaction) : EngineState → List Transaction →
    Except String EngineState
  | s, [] => Except.ok s
  | s, t :: rest =>
    match stepT ts s t with
    | Except.ok s' => runList ts s' rest
    | Except.error e => Except.error e

/-- The whole processing loop from the initial empty state. -/
def runEngine (ts : List Transaction) : Except String EngineState :=
  runList ts initState ts

/-- Instruments appearing among the holdings keys, each once, mirroring the
`holdings_by_instrument` dict the final summary iterates over. -/
def instrumentsOf (h : List (LotKey × List Lot)) : List String :=
  (h.map (fun p => p.1.1)).dedup

/-- The final summary fold (source lines 324-357): the returned scalar adds
`realized_gains + realized_losses` once per instrument present in the
holdings dict. -/
def totalGainLoss (s : EngineState) : ℚ :=
  qsum (instrumentsOf s.holdings) (fun i => s.realized_gains i + s.realized_losses i)

/-- The full computation: resolve quantities, process every transaction,
fold the summary. -/
def calculate_stock_gains_and_losses (rs : List RawTransaction) : Except String ℚ :=
  (runEngine (rs.map resolveRaw)).map totalGainLoss

/-- The chunk list a closing event derives: what the FIFO loop records. -/
def closeChunks (key : LotKey) (d : ℤ) (qty amount : ℚ) (s : EngineState) :
    List Chunk :=
  (consumeFIFO (qabs amount / qty) d qty (hGet s.holdings key)).1

/-- The lot queue a closing event leaves behind for its key. -/
def closeLots (key : LotKey) (d : ℤ) (qty amount : ℚ) (s : EngineState) :
    List Lot :=
  (consumeFIFO (qabs amount / qty) d qty (hGet s.holdings key)).2

/-- Sum of `f` over the chunks selected by `p`, used to state what the
holding-period classification loop adds to each accumulator. -/
def sumBy (p : Chunk → Bool) (f : Chunk → ℚ) : List Chunk → ℚ
  | [] => 0
  | c :: cs => (if p c then f c else 0) + sumBy p f cs

/-- The long-term test of the classification loop: held 365 days or more. -/
def isLongTerm (c : Chunk) : Bool :=
  decide (365 ≤ c.hp)

/-- Everything an event can observe of or contribute to its own key: the
key's lot queue and pending list plus the eleven per-instrument
accumulators. -/
def observables (t : Transaction) (s : EngineState) :
    List Lot × List Pending × (String → ℚ) × (String → ℚ) × (String → ℚ) ×
      (String → ℚ) × (String → ℚ) × (String → ℚ) × (String → ℚ) ×
      (String → ℚ) × (String → ℚ) × (String → ℚ) × (String → ℚ) :=
  (hGet s.holdings (get_key t), pGet s.pending (get_key t),
    s.realized_gains, s.realized_losses, s.disallowed_losses,
    s.gross_sales, s.gross_cost_basis, s.long_term_gain, s.short_term_gain,
    s.gross_long_term_sales, s.gross_short_term_sales,
    s.gross_long_term_cost_basis, s.gross_short_term_cost_basis)

/-- A state with the lot queue and pending list of one key overwritten
arbitrarily, used to state that processing a transaction of a different key
never reads them. -/
def maskOther (s : EngineState) (k : LotKey) (v : List Lot) (w : List Pending) :
    EngineState :=
  { s with holdings := setK s.holdings k v, pending := setK s.pending k w }

/-! Concrete inputs used by the claim instances and witnesses. -/

/-- Wash-sale deferral scenario: buy 100 shares for $5000 on day 0, sell 100
for $4000 on day 10, buy 100 for $4500 on day 20. -/
def exC1 : List Transaction :=
  [ { date := 0, instrument := "A", trans_type := "Buy", quantity := 100,
      amount := -5000, description := "" }
  , { date := 10, instrument := "A", trans_type := "Sell", quantity := 100,
      amount := 4000, description := "" }
  , { date := 20, instrument := "A", trans_type := "Buy", quantity := 100,
      amount := -4500, description := "" } ]

/-- FIFO scenario: buy 10 units at $10, buy 10 units at $20, sell 15. -/
def exC4 : List Transaction :=
  [ { date := 0, instrument := "A", trans_type := "Buy", quantity := 10,
      amount := -100, description := "" }
  , { date := 1, instrument := "A", trans_type := "Buy", quantity := 10,
      amount := -200, description := "" }
  , { date := 2, instrument := "A", trans_type := "Sell", quantity := 15,
      amount := 300, description := "" } ]

def exC3bto : Transaction :=
  { date := 0, instrument := "AAPL", trans_type := "BTO", quantity := 1,
    amount := -500, description := "AAPL 1/15/2021 Call $100" }

def exC3oexp : Transaction :=
  { date := 10, instrument := "AAPL", trans_type := "OEXP", quantity := 1,
    amount := 0, description := "Option Expiration for AAPL 1/15/2021 Call $100" }

def exC3bto2 : Transaction :=
  { date := 20, instrument := "AAPL", trans_type := "BTO", quantity := 1,
    amount := -400, description := "AAPL 1/15/2021 Call $100" }

/-- Expiration-replacement scenario: open a contract, let it expire at a
loss, and buy the same contract back ten days later, inside the 30-day
window. -/
def exC3 : List Transaction :=
  [exC3bto, exC3oexp, exC3bto2]

def exStock : LotKey := ("X", KeyId.stock)

/-- A state holding one lot of 100 shares at $50 bought on day 0. -/
def stateLot100 : EngineState :=
  { initState with holdings := [(exStock, [⟨100, 50, 0, false, 0, 5000⟩])] }

/-- Partial-replacement sale: sells the 100 shares of `stateLot100` on day
40 for $4000, a $1000 loss. -/
def sellC2 : Transaction :=
  { date := 40, instrument := "X", trans_type := "Sell", quantity := 100,
    amount := 4000, description := "" }

/-- The only qualifying replacement buy: 40 shares ten days after the sale. -/
def tsC2 : List Transaction :=
  [ { date := 50, instrument := "X", trans_type := "Buy", quantity := 40,
      amount := -1800, description := "" } ]

/-- A state holding a lot bought 400 days before day 400 and a lot bought 10
days before day 400. -/
def stateC5 : EngineState :=
  { initState with holdings :=
      [(exStock, [⟨10, 10, 0, false, 0, 100⟩, ⟨10, 20, 390, false, 0, 200⟩])] }

/-- A sale on day 400 consuming both lots of `stateC5`. -/
def sellC5 : Transaction :=
  { date := 400, instrument := "X", trans_type := "Sell", quantity := 15,
    amount := 300, description := "" }

/-- A sale on a key with no open lots. -/
def sellC6 : Transaction :=
  { date := 0, instrument := "X", trans_type := "Sell", quantity := 1,
    amount := 7, description := "" }

/-- A buy transaction whose quantity string does not parse. -/
def rawBuyBad : RawTransaction :=
  { date := 0, instrument := "A", trans_type := "Buy", quantity_parse := none,
    amount := -100, description := "" }

/-- An option-expiration row whose quantity string does not parse (the shape
Robinhood actually exports, for example "1S"). -/
def rawOexpBad : RawTransaction :=
  { date := 30, instrument := "Z", trans_type := "OEXP", quantity_parse := none,
    amount := 0, description := "Option Expiration for Zd" }

/-- A state with two contracts of the key `("Z", "Zd")` open. -/
def stateC7 : EngineState :=
  { initState with holdings := [(("Z", KeyId.opt "Zd"), [⟨2, 10, 0, true, 0, 20⟩])] }

/-- A buy-then-sell ledger for the summary-total witness. -/
def rawC8 : List RawTransaction :=
  [ { date := 0, instrument := "A", trans_type := "Buy", quantity_parse := some 1,
      amount := -10, description := "" }
  , { date := 5, instrument := "A", trans_type := "Sell", quantity_parse := some 1,
      amount := 20, description := "" } ]

/-- A buy used by the key-isolation witness. -/
def buyC9 : Transaction :=
  { date := 0, instrument := "X", trans_type := "Buy", quantity := 1,
    amount := -10, description := "" }

def bto1C9 : Transaction :=
  { date := 0, instrument := "X", trans_type := "BTO", quantity := 1,
    amount := -10, description := "X 1/15/2021 Call $5" }

def bto2C9 : Transaction :=
  { date := 0, instrument := "X", trans_type := "BTO", quantity := 1,
    amount := -10, description := "X 1/15/2021 Call $6" }

/-- A cancelled-buy row, selected by the query but matched by no branch. -/
def bcxlT : Transaction :=
  { date := 0, instrument := "X", trans_type := "BCXL", quantity := 5,
    amount := -100, description := "" }

/-! Association-list, accumulator and arithmetic helper lemmas. -/

theorem lookupD_setK_self {β : Type} (h : List (LotKey × β)) (k : LotKey) (v d : β) :
    lookupD (setK h k v) k d = v := by
  induction h with
  | nil => simp [setK, lookupD]
  | cons p rest ih =>
    obtain ⟨k', v'⟩ := p
    by_cases hk : k' = k
    · simp [setK, hk, lookupD]
    · simp [setK, hk, lookupD, ih]

theorem lookupD_setK_ne {β : Type} (h : List (LotKey × β)) {k k' : LotKey} (v d : β)
    (hne : k' ≠ k) : lookupD (setK h k v) k' d = lookupD h k' d := by
  induction h with
  | nil => simp [setK, lookupD, Ne.symm hne]
  | cons p rest ih =>
    obtain ⟨k₀, v₀⟩ := p
    by_cases hk : k₀ = k
    · subst hk
      simp [setK, lookupD, Ne.symm hne]
    · simp [setK, hk, lookupD, ih]

theorem addAt_self (f : String → ℚ) (k : String) (v : ℚ) : addAt f k v k = f k + v := by
  simp [addAt]

theorem addAt_ne (f : String → ℚ) {k x : String} (v : ℚ) (hne : x ≠ k) :
    addAt f k v x = f x := by
  simp [addAt, hne]

theorem addAt_zero (f : String → ℚ) (k : String) : addAt f k 0 = f := by
  funext x
  by_cases hx : x = k <;> simp [addAt, hx]

theorem addAt_addAt (f : String → ℚ) (k : String) (a b : ℚ) :
    addAt (addAt f k a) k b = addAt f k (a + b) := by
  funext x
  by_cases hx : x = k <;> simp [addAt, hx, add_assoc]

theorem qabs_eq_abs (a : ℚ) : qabs a = |a| := by
  rcases lt_or_le a 0 with h | h
  · rw [qabs, if_pos h, abs_of_neg h]
  · rw [qabs, if_neg (not_lt.mpr h), abs_of_nonneg h]

theorem qmin_eq_min (a b : ℚ) : qmin a b = min a b := by
  rw [qmin, min_def]

theorem qabs_nonneg (a : ℚ) : 0 ≤ qabs a := by
  rw [qabs_eq_abs]
  exact abs_nonneg a

theorem qmin_le_left (a b : ℚ) : qmin a b ≤ a := by
  rw [qmin_eq_min]
  exact min_le_left a b

/-! Facts about transaction classification and keys. -/

theorem trans_type_of_sell {t : Transaction} (h : t.is_sell = true) :
    t.trans_type = "Sell" ∨ t.trans_type = "STC" := by
  simpa [Transaction.is_sell, Bool.or_eq_true, beq_iff_eq] using h

theorem is_buy_false_of_close {t : Transaction}
    (h : t.is_sell = true ∨ t.trans_type = "OEXP") : t.is_buy = false := by
  rcases h with h | h
  · rcases trans_type_of_sell h with h' | h' <;> simp [Transaction.is_buy, h']
  · simp [Transaction.is_buy, h]

theorem get_key_fst (t : Transaction) : (get_key t).1 = t.instrument := by
  unfold get_key
  split <;> rfl

theorem resolvedQty_of_ne {t : Transaction} (s : EngineState) (h : t.quantity ≠ 0) :
    resolvedQty s t = t.quantity := by
  simp [resolvedQty, h]

theorem stepT_close {t : Transaction} (ts : List Transaction) (s : EngineState)
    (h : t.is_sell = true ∨ t.trans_type = "OEXP") :
    stepT ts s t = settleClose t.instrument (get_key t) t.date (resolvedQty s t)
      t.amount (replacementQty ts s t) s := by
  have hb := is_buy_false_of_close h
  unfold stepT
  rw [hb]
  rcases h with h | h
  · simp [h]
  · simp [h]

theorem settleClose_ok {qty : ℚ} (instr : String) (key : LotKey) (d : ℤ)
    (amount repl : ℚ) (s : EngineState) (hq : qty ≠ 0) :
    settleClose instr key d qty amount repl s =
      Except.ok (settleCloseOk instr key d qty amount repl s) := by
  unfold settleClose
  rw [if_neg hq]

/-! Effect of the holding-period classification loop on each field. -/

theorem applyChunk_holdings (i : String) (c : Chunk) (s : EngineState) :
    (applyChunk i c s).holdings = s.holdings := by
  unfold applyChunk
  split <;> rfl

theorem applyChunk_pending (i : String) (c : Chunk) (s : EngineState) :
    (applyChunk i c s).pending = s.pending := by
  unfold applyChunk
  split <;> rfl

theorem applyChunk_realized_gains (i : String) (c : Chunk) (s : EngineState) :
    (applyChunk i c s).realized_gains = s.realized_gains := by
  unfold applyChunk
  split <;> rfl

theorem applyChunk_realized_losses (i : String) (c : Chunk) (s : EngineState) :
    (applyChunk i c s).realized_losses = s.realized_losses := by
  unfold applyChunk
  split <;> rfl

theorem applyChunk_disallowed_losses (i : String) (c : Chunk) (s : EngineState) :
    (applyChunk i c s).disallowed_losses = s.disallowed_losses := by
  unfold applyChunk
  split <;> rfl

theorem applyChunk_gross_sales (i : String) (c : Chunk) (s : EngineState) :
    (applyChunk i c s).gross_sales = s.gross_sales := by
  unfold applyChunk
  split <;> rfl

theorem applyChunk_gross_cost_basis (i : String) (c : Chunk) (s : EngineState) :
    (applyChunk i c s).gross_cost_basis = s.gross_cost_basis := by
  unfold applyChunk
  split <;> rfl

theorem applyBreakdowns_holdings (i : String) (cs : List Chunk) :
    ∀ s : EngineState, (applyBreakdowns i cs s).holdings = s.holdings := by
  induction cs with
  | nil => intro s; rfl
  | cons c cs ih =>
    intro s
    rw [applyBreakdowns, ih, applyChunk_holdings]

theorem applyBreakdowns_pending (i : String) (cs : List Chunk) :
    ∀ s : EngineState, (applyBreakdowns i cs s).pending = s.pending := by
  induction cs with
  | nil => intro s; rfl
  | cons c cs ih =>
    intro s
    rw [applyBreakdowns, ih, applyChunk_pending]

theorem applyBreakdowns_realized_gains (i : String) (cs : List Chunk) :
    ∀ s : EngineState, (applyBreakdowns i cs s).realized_gains = s.realized_gains := by
  induction cs with
  | nil => intro s; rfl
  | cons c cs ih =>
    intro s
    rw [applyBreakdowns, ih, applyChunk_realized_gains]

theorem applyBreakdowns_realized_losses (i : String) (cs : List Chunk) :
    ∀ s : EngineState, (applyBreakdowns i cs s).realized_losses = s.realized_losses := by
  induction cs with
  | nil => intro s; rfl
  | cons c cs ih =>
    intro s
    rw [applyBreakdowns, ih, applyChunk_realized_losses]

theorem applyBreakdowns_disallowed_losses (i : String) (cs : List Chunk) :
    ∀ s : EngineState, (applyBreakdowns i cs s).disallowed_losses = s.disallowed_losses := by
  induction cs with
  | nil => intro s; rfl
  | cons c cs ih =>
    intro s
    rw [applyBreakdowns, ih, applyChunk_disallowed_losses]

theorem applyBreakdowns_gross_sales (i : String) (cs : List Chunk) :
    ∀ s : EngineState, (applyBreakdowns i cs s).gross_sales = s.gross_sales := by
  induction cs with
  | nil => intro s; rfl
  | cons c cs ih =>
    intro s
    rw [applyBreakdowns, ih, applyChunk_gross_sales]

theorem applyBreakdowns_gross_cost_basis (i : String) (cs : List Chunk) :
    ∀ s : EngineState, (applyBreakdowns i cs s).gross_cost_basis = s.gross_cost_basis := by
  induction cs with
  | nil => intro s; rfl
  | cons c cs ih =>
    intro s
    rw [applyBreakdowns, ih, applyChunk_gross_cost_basis]

theorem applyBreakdowns_long_term_gain (i : String) (cs : List Chunk) :
    ∀ s : EngineState, (applyBreakdowns i cs s).long_term_gain =
      addAt s.long_term_gain i (sumBy isLongTerm (fun c => c.proceeds - c.basis) cs) := by
  induction cs with
  | nil => intro s; simp [applyBreakdowns, sumBy, addAt_zero]
  | cons c cs ih =>
    intro s
    rw [applyBreakdowns, ih, sumBy]
    by_cases hc : 365 ≤ c.hp
    · simp [applyChunk, hc, isLongTerm, addAt_addAt]
    · simp [applyChunk, hc, isLongTerm]

theorem applyBreakdowns_short_term_gain (i : String) (cs : List Chunk) :
    ∀ s : EngineState, (applyBreakdowns i cs s).short_term_gain =
      addAt s.short_term_gain i
        (sumBy (fun c => !isLongTerm c) (fun c => c.proceeds - c.basis) cs) := by
  induction cs with
  | nil => intro s; simp [applyBreakdowns, sumBy, addAt_zero]
  | cons c cs ih =>
    intro s
    rw [applyBreakdowns, ih, sumBy]
    by_cases hc : 365 ≤ c.hp
    · simp [applyChunk, hc, isLongTerm]
    · simp [applyChunk, hc, isLongTerm, addAt_addAt]

theorem applyBreakdowns_gross_long_term_sales (i : String) (cs : List Chunk) :
    ∀ s : EngineState, (applyBreakdowns i cs s).gross_long_term_sales =
      addAt s.gross_long_term_sales i (sumBy isLongTerm (fun c => c.proceeds) cs) := by
  induction cs with
  | nil => intro s; simp [applyBreakdowns, sumBy, addAt_zero]
  | cons c cs ih =>
    intro s
    rw [applyBreakdowns, ih, sumBy]
    by_cases hc : 365 ≤ c.hp
    · simp [applyChunk, hc, isLongTerm, addAt_addAt]
    · simp [applyChunk, hc, isLongTerm]

theorem applyBreakdowns_gross_short_term_sales (i : String) (cs : List Chunk) :
    ∀ s : EngineState, (applyBreakdowns i cs s).gross_short_term_sales =
      addAt s.gross_short_term_sales i
        (sumBy (fun c => !isLongTerm c) (fun c => c.proceeds) cs) := by
  induction cs with
  | nil => intro s; simp [applyBreakdowns, sumBy, addAt_zero]
  | cons c cs ih =>
    intro s
    rw [applyBreakdowns, ih, sumBy]
    by_cases hc : 365 ≤ c.hp
    · simp [applyChunk, hc, isLongTerm]
    · simp [applyChunk, hc, isLongTerm, addAt_addAt]

theorem applyBreakdowns_gross_long_term_cost_basis (i : String) (cs : List Chunk) :
    ∀ s : EngineState, (applyBreakdowns i cs s).gross_long_term_cost_basis =
      addAt s.gross_long_term_cost_basis i (sumBy isLongTerm (fun c => c.basis) cs) := by
  induction cs with
  | nil => intro s; simp [applyBreakdowns, sumBy, addAt_zero]
  | cons c cs ih =>
    intro s
    rw [applyBreakdowns, ih, sumBy]
    by_cases hc : 365 ≤ c.hp
    · simp [applyChunk, hc, isLongTerm, addAt_addAt]
    · simp [applyChunk, hc, isLongTerm]

theorem applyBreakdowns_gross_short_term_cost_basis (i : String) (cs : List Chunk) :
    ∀ s : EngineState, (applyBreakdowns i cs s).gross_short_term_cost_basis =
      addAt s.gross_short_term_cost_basis i
        (sumBy (fun c => !isLongTerm c) (fun c => c.basis) cs) := by
  induction cs with
  | nil => intro s; simp [applyBreakdowns, sumBy, addAt_zero]
  | cons c cs ih =>
    intro s
    rw [applyBreakdowns, ih, sumBy]
    by_cases hc : 365 ≤ c.hp
    · simp [applyChunk, hc, isLongTerm]
    · simp [applyChunk, hc, isLongTerm, addAt_addAt]

/-! Shape of the state a closing event produces. -/

theorem settleCloseOk_holdings (instr : String) (key : LotKey) (d : ℤ)
    (qty amount repl : ℚ) (s : EngineState) :
    (settleCloseOk instr key d qty amount repl s).holdings =
      setK s.holdings key (closeLots key d qty amount s) := by
  simp only [settleCloseOk, closeLots]
  split_ifs <;> simp [applyBreakdowns_holdings]

theorem settleCloseOk_gross_sales (instr : String) (key : LotKey) (d : ℤ)
    (qty amount repl : ℚ) (s : EngineState) :
    (settleCloseOk instr key d qty amount repl s).gross_sales =
      addAt s.gross_sales instr (qabs amount) := by
  simp only [settleCloseOk]
  split_ifs <;> simp [applyBreakdowns_gross_sales]

theorem settleCloseOk_gross_cost_basis (instr : String) (key : LotKey) (d : ℤ)
    (qty amount repl : ℚ) (s : EngineState) :
    (settleCloseOk instr key d qty amount repl s).gross_cost_basis =
      addAt s.gross_cost_basis instr (chunkBasisSum (closeChunks key d qty amount s)) := by
  simp only [settleCloseOk, closeChunks]
  split_ifs <;> simp [applyBreakdowns_gross_cost_basis]

theorem settleCloseOk_long_term_gain (instr : String) (key : LotKey) (d : ℤ)
    (qty amount repl : ℚ) (s : EngineState) :
    (settleCloseOk instr key d qty amount repl s).long_term_gain =
      addAt s.long_term_gain instr
        (sumBy isLongTerm (fun c => c.proceeds - c.basis) (closeChunks key d qty amount s)) := by
  simp only [settleCloseOk, closeChunks]
  split_ifs <;> simp [applyBreakdowns_long_term_gain]

theorem settleCloseOk_short_term_gain (instr : String) (key : LotKey) (d : ℤ)
    (qty amount repl : ℚ) (s : EngineState) :
    (settleCloseOk instr key d qty amount repl s).short_term_gain =
      addAt s.short_term_gain instr
        (sumBy (fun c => !isLongTerm c) (fun c => c.proceeds - c.basis)
          (closeChunks key d qty amount s)) := by
  simp only [settleCloseOk, closeChunks]
  split_ifs <;> simp [applyBreakdowns_short_term_gain]

theorem settleCloseOk_gross_long_term_sales (instr : String) (key : LotKey) (d : ℤ)
    (qty amount repl : ℚ) (s : EngineState) :
    (settleCloseOk instr key d qty amount repl s).gross_long_term_sales =
      addAt s.gross_long_term_sales instr
        (sumBy isLongTerm (fun c => c.proceeds) (closeChunks key d qty amount s)) := by
  simp only [settleCloseOk, closeChunks]
  split_ifs <;> simp [applyBreakdowns_gross_long_term_sales]

theorem settleCloseOk_gross_short_term_sales (instr : String) (key : LotKey) (d : ℤ)
    (qty amount repl : ℚ) (s : EngineState) :
    (settleCloseOk instr key d qty amount repl s).gross_short_term_sales =
      addAt s.gross_short_term_sales instr
        (sumBy (fun c => !isLongTerm c) (fun c => c.proceeds) (closeChunks key d qty amount s)) := by
  simp only [settleCloseOk, closeChunks]
  split_ifs <;> simp [applyBreakdowns_gross_short_term_sales]

theorem settleCloseOk_gross_long_term_cost_basis (instr : String) (key : LotKey) (d : ℤ)
    (qty amount repl : ℚ) (s : EngineState) :
    (settleCloseOk instr key d qty amount repl s).gross_long_term_cost_basis =
      addAt s.gross_long_term_cost_basis instr
        (sumBy isLongTerm (fun c => c.basis) (closeChunks key d qty amount s)) := by
  simp only [settleCloseOk, closeChunks]
  split_ifs <;> simp [applyBreakdowns_gross_long_term_cost_basis]

theorem settleCloseOk_gross_short_term_cost_basis (instr : String) (key : LotKey) (d : ℤ)
    (qty amount repl : ℚ) (s : EngineState) :
    (settleCloseOk instr key d qty amount repl s).gross_short_term_cost_basis =
      addAt s.gross_short_term_cost_basis instr
        (sumBy (fun c => !isLongTerm c) (fun c => c.basis) (closeChunks key d qty amount s)) := by
  simp only [settleCloseOk, closeChunks]
  split_ifs <;> simp [applyBreakdowns_gross_short_term_cost_basis]

theorem settleCloseOk_of_gain (instr : String) (key : LotKey) (d : ℤ)
    (qty amount repl : ℚ) (s : EngineState)
    (hnet : ¬ (qabs amount - chunkBasisSum (closeChunks key d qty amount s) < 0)) :
    (settleCloseOk instr key d qty amount repl s).realized_gains =
      addAt s.realized_gains instr
        (qabs amount - chunkBasisSum (closeChunks key d qty amount s)) ∧
    (settleCloseOk instr key d qty amount repl s).realized_losses = s.realized_losses ∧
    (settleCloseOk instr key d qty amount repl s).disallowed_losses = s.disallowed_losses ∧
    (settleCloseOk instr key d qty amount repl s).pending = s.pending := by
  unfold closeChunks at hnet ⊢
  simp only [settleCloseOk]
  rw [if_neg hnet]
  refine ⟨?_, ?_, ?_, ?_⟩ <;>
    simp [applyBreakdowns_realized_gains, applyBreakdowns_realized_losses,
      applyBreakdowns_disallowed_losses, applyBreakdowns_pending]

theorem settleCloseOk_of_defer (instr : String) (key : LotKey) (d : ℤ)
    (qty amount repl : ℚ) (s : EngineState)
    (hnet : qabs amount - chunkBasisSum (closeChunks key d qty amount s) < 0)
    (hrepl : 0 < repl) :
    (settleCloseOk instr key d qty amount repl s).disallowed_losses =
      addAt s.disallowed_losses instr
        (qmin qty repl *
          ((-(qabs amount - chunkBasisSum (closeChunks key d qty amount s))) / qty)) ∧
    (settleCloseOk instr key d qty amount repl s).pending =
      setK s.pending key (pGet s.pending key ++
        [⟨qmin qty repl,
          (-(qabs amount - chunkBasisSum (closeChunks key d qty amount s))) / qty, d + 30⟩]) ∧
    (settleCloseOk instr key d qty amount repl s).realized_gains = s.realized_gains ∧
    (settleCloseOk instr key d qty amount repl s).realized_losses =
      (if 0 < qty - qmin qty repl then
        addAt s.realized_losses instr
          ((qabs amount - chunkBasisSum (closeChunks key d qty amount s)) +
            qmin qty repl *
              ((-(qabs amount - chunkBasisSum (closeChunks key d qty amount s))) / qty))
      else s.realized_losses) := by
  unfold closeChunks at hnet ⊢
  simp only [settleCloseOk]
  rw [if_pos hnet, if_pos hrepl]
  by_cases hpart : 0 < qty - qmin qty repl
  · rw [if_pos hpart]
    refine ⟨?_, ?_, ?_, ?_⟩ <;>
      simp [hpart, applyBreakdowns_realized_gains, applyBreakdowns_realized_losses,
        applyBreakdowns_disallowed_losses, applyBreakdowns_pending]
  · rw [if_neg hpart]
    refine ⟨?_, ?_, ?_, ?_⟩ <;>
      simp [hpart, applyBreakdowns_realized_gains, applyBreakdowns_realized_losses,
        applyBreakdowns_disallowed_losses, applyBreakdowns_pending]

theorem settleCloseOk_realized_gains_ne (instr : String) (key : LotKey) (d : ℤ)
    (qty amount repl : ℚ) (s : EngineState) {i : String} (hx : i ≠ instr) :
    (settleCloseOk instr key d qty amount repl s).realized_gains i = s.realized_gains i := by
  simp only [settleCloseOk]
  split_ifs <;>
    simp [applyBreakdowns_realized_gains, applyBreakdowns_realized_losses, addAt_ne _ _ hx]

theorem settleCloseOk_realized_losses_ne (instr : String) (key : LotKey) (d : ℤ)
    (qty amount repl : ℚ) (s : EngineState) {i : String} (hx : i ≠ instr) :
    (settleCloseOk instr key d qty amount repl s).realized_losses i = s.realized_losses i := by
  simp only [settleCloseOk]
  split_ifs <;>
    simp [applyBreakdowns_realized_losses, addAt_ne _ _ hx]

theorem settleCloseOk_pending_ne (instr : String) (key : LotKey) (d : ℤ)
    (qty amount repl : ℚ) (s : EngineState) {k : LotKey} (hk : k ≠ key) :
    pGet (settleCloseOk instr key d qty amount repl s).pending k = pGet s.pending k := by
  simp only [settleCloseOk, pGet]
  split_ifs <;>
    simp [applyBreakdowns_pending, lookupD_setK_ne _ _ _ hk]

theorem settleCloseOk_realized_gains_shape (instr : String) (key : LotKey) (d : ℤ)
    (qty amount repl : ℚ) (s : EngineState) :
    (settleCloseOk instr key d qty amount repl s).realized_gains =
      (if qabs amount - chunkBasisSum (closeChunks key d qty amount s) < 0 then
        s.realized_gains
      else
        addAt s.realized_gains instr
          (qabs amount - chunkBasisSum (closeChunks key d qty amount s))) := by
  simp only [settleCloseOk, closeChunks]
  split_ifs <;> simp [applyBreakdowns_realized_gains]

theorem settleCloseOk_realized_losses_shape (instr : String) (key : LotKey) (d : ℤ)
    (qty amount repl : ℚ) (s : EngineState) :
    (settleCloseOk instr key d qty amount repl s).realized_losses =
      (if qabs amount - chunkBasisSum (closeChunks key d qty amount s) < 0 then
        (if 0 < repl then
          (if 0 < qty - qmin qty repl then
            addAt s.realized_losses instr
              ((qabs amount - chunkBasisSum (closeChunks key d qty amount s)) +
                qmin qty repl *
                  ((-(qabs amount - chunkBasisSum (closeChunks key d qty amount s))) / qty))
          else s.realized_losses)
        else
          addAt s.realized_losses instr
            (qabs amount - chunkBasisSum (closeChunks key d qty amount s)))
      else s.realized_losses) := by
  simp only [settleCloseOk, closeChunks]
  split_ifs <;> simp [applyBreakdowns_realized_losses]

theorem settleCloseOk_disallowed_losses_shape (instr : String) (key : LotKey) (d : ℤ)
    (qty amount repl : ℚ) (s : EngineState) :
    (settleCloseOk instr key d qty amount repl s).disallowed_losses =
      (if qabs amount - chunkBasisSum (closeChunks key d qty amount s) < 0 ∧ 0 < repl then
        addAt s.disallowed_losses instr
          (qmin qty repl *
            ((-(qabs amount - chunkBasisSum (closeChunks key d qty amount s))) / qty))
      else s.disallowed_losses) := by
  simp only [settleCloseOk, closeChunks]
  split_ifs with h1 h2 h3 <;>
    simp_all [applyBreakdowns_disallowed_losses]

theorem settleCloseOk_pending_self (instr : String) (key : LotKey) (d : ℤ)
    (qty amount repl : ℚ) (s : EngineState) :
    pGet (settleCloseOk instr key d qty amount repl s).pending key =
      (if qabs amount - chunkBasisSum (closeChunks key d qty amount s) < 0 ∧ 0 < repl then
        pGet s.pending key ++
          [⟨qmin qty repl,
            (-(qabs amount - chunkBasisSum (closeChunks key d qty amount s))) / qty, d + 30⟩]
      else pGet s.pending key) := by
  simp only [settleCloseOk, closeChunks, pGet]
  split_ifs with h1 h2 h3 <;>
    simp_all [applyBreakdowns_pending, lookupD_setK_self]

/-- Every chunk a FIFO consumption records takes its proceeds share from the
uniform per-share price and its cost basis and holding period from a lot of
the queue it consumed. -/
theorem consumeFIFO_chunks (pps : ℚ) (d : ℤ) :
    ∀ (r : ℚ) (lots : List Lot), ∀ c ∈ (consumeFIFO pps d r lots).1,
      c.proceeds = c.qty * pps ∧
      ∃ lot ∈ lots, c.basis = c.qty * lot.price ∧ c.hp = d - lot.date := by
  intro r lots
  induction lots generalizing r with
  | nil =>
    intro c hc
    simp [consumeFIFO] at hc
  | cons lot rest ih =>
    intro c hc
    simp only [consumeFIFO] at hc
    by_cases hr : 0 < r
    · rw [if_pos hr] at hc
      by_cases hs : qmin r lot.quantity < lot.quantity
      · rw [if_pos hs] at hc
        simp only [List.mem_singleton] at hc
        subst hc
        exact ⟨rfl, lot, List.mem_cons_self lot rest, rfl, rfl⟩
      · rw [if_neg hs] at hc
        simp only [List.mem_cons] at hc
        rcases hc with hc | hc
        · subst hc
          exact ⟨rfl, lot, List.mem_cons_self lot rest, rfl, rfl⟩
        · obtain ⟨h1, lot', hmem, h2, h3⟩ := ih (r - qmin r lot.quantity) c hc
          exact ⟨h1, lot', List.mem_cons_of_mem lot hmem, h2, h3⟩
    · rw [if_neg hr] at hc
      simp at hc

/-! Instrument bookkeeping for the final summary. -/

theorem mem_instrumentsOf {h : List (LotKey × List Lot)} {i : String} :
    i ∈ instrumentsOf h ↔ i ∈ h.map (fun p => p.1.1) :=
  List.mem_dedup

theorem mem_map_fst_setK {β : Type} (h : List (LotKey × β)) (k : LotKey) (v : β)
    (x : String) :
    x ∈ (setK h k v).map (fun p => p.1.1) ↔ x = k.1 ∨ x ∈ h.map (fun p => p.1.1) := by
  induction h with
  | nil => simp [setK]
  | cons p rest ih =>
    obtain ⟨k₀, v₀⟩ := p
    by_cases hk : k₀ = k
    · subst hk
      simp [setK]
    · simp only [setK, if_neg hk, List.map_cons, List.mem_cons, ih]
      tauto

theorem instrumentsOf_setK_sub {h : List (LotKey × List Lot)} {k : LotKey}
    {v : List Lot} {i : String} (hi : i ∈ instrumentsOf (setK h k v)) :
    i = k.1 ∨ i ∈ instrumentsOf h := by
  rw [mem_instrumentsOf] at hi
  rcases (mem_map_fst_setK h k v i).mp hi with hi | hi
  · exact Or.inl hi
  · exact Or.inr (mem_instrumentsOf.mpr hi)

theorem instrumentsOf_setK_self {h : List (LotKey × List Lot)} {k : LotKey}
    {v : List Lot} : k.1 ∈ instrumentsOf (setK h k v) :=
  mem_instrumentsOf.mpr ((mem_map_fst_setK h k v k.1).mpr (Or.inl rfl))

/-- Invariant preservation by one processing step: holdings instruments stay
inside the transaction instruments, and realized gains/losses stay zero for
instruments without a holdings entry. -/
theorem stepT_inv {ts : List Transaction} {L : List String} {s s' : EngineState}
    {t : Transaction} (hstep : stepT ts s t = Except.ok s') (hI : t.instrument ∈ L)
    (h1 : ∀ i ∈ instrumentsOf s.holdings, i ∈ L)
    (h2 : ∀ i, i ∉ instrumentsOf s.holdings →
      s.realized_gains i = 0 ∧ s.realized_losses i = 0) :
    (∀ i ∈ instrumentsOf s'.holdings, i ∈ L) ∧
    (∀ i, i ∉ instrumentsOf s'.holdings →
      s'.realized_gains i = 0 ∧ s'.realized_losses i = 0) := by
  by_cases hb : t.is_buy = true
  · simp only [stepT, hb, if_pos] at hstep
    by_cases hq : t.quantity = 0
    · simp [processBuy, hq] at hstep
    · simp only [processBuy, hq, if_neg, if_false, Except.ok.injEq] at hstep
      subst hstep
      constructor
      · intro i hi
        rcases instrumentsOf_setK_sub (h := s.holdings) (by simpa [processBuyOk] using hi)
          with hi | hi
        · rw [get_key_fst] at hi
          exact hi ▸ hI
        · exact h1 i hi
      · intro i hi
        have hold : i ∉ instrumentsOf s.holdings := by
          intro hmem
          exact hi (by
            simp only [processBuyOk]
            exact mem_instrumentsOf.mpr
              ((mem_map_fst_setK _ _ _ i).mpr (Or.inr (mem_instrumentsOf.mp hmem))))
        simpa [processBuyOk] using h2 i hold
  · by_cases hc : (t.is_sell || (t.trans_type == "OEXP")) = true
    · have hclose : t.is_sell = true ∨ t.trans_type = "OEXP" := by
        simpa [Bool.or_eq_true, beq_iff_eq] using hc
      rw [stepT_close ts s hclose] at hstep
      unfold settleClose at hstep
      by_cases hq : resolvedQty s t = 0
      · rw [if_pos hq] at hstep
        exact absurd hstep (by simp)
      · rw [if_neg hq, Except.ok.injEq] at hstep
        subst hstep
        constructor
        · intro i hi
          rw [settleCloseOk_holdings] at hi
          rcases instrumentsOf_setK_sub (h := s.holdings) hi with hi | hi
          · rw [get_key_fst] at hi
            exact hi ▸ hI
          · exact h1 i hi
        · intro i hi
          have hne : i ≠ t.instrument := by
            intro hEq
            subst hEq
            apply hi
            rw [settleCloseOk_holdings]
            have := instrumentsOf_setK_self (h := s.holdings)
              (k := get_key t) (v := closeLots (get_key t) t.date (resolvedQty s t) t.amount s)
            rwa [get_key_fst] at this
          have hold : i ∉ instrumentsOf s.holdings := by
            intro hmem
            apply hi
            rw [settleCloseOk_holdings]
            exact mem_instrumentsOf.mpr
              ((mem_map_fst_setK _ _ _ i).mpr (Or.inr (mem_instrumentsOf.mp hmem)))
          rw [settleCloseOk_realized_gains_ne _ _ _ _ _ _ _ hne,
            settleCloseOk_realized_losses_ne _ _ _ _ _ _ _ hne]
          exact h2 i hold
    · simp only [stepT] at hstep
      rw [if_neg hb, if_neg hc, Except.ok.injEq] at hstep
      subst hstep
      exact ⟨h1, h2⟩

/-- Invariant preservation along the processing loop. -/
theorem runList_inv {ts : List Transaction} {L : List String} :
    ∀ (rest : List Transaction) (s s' : EngineState),
      runList ts s rest = Except.ok s' →
      (∀ t ∈ rest, t.instrument ∈ L) →
      (∀ i ∈ instrumentsOf s.holdings, i ∈ L) →
      (∀ i, i ∉ instrumentsOf s.holdings →
        s.realized_gains i = 0 ∧ s.realized_losses i = 0) →
      (∀ i ∈ instrumentsOf s'.holdings, i ∈ L) ∧
      (∀ i, i ∉ instrumentsOf s'.holdings →
        s'.realized_gains i = 0 ∧ s'.realized_losses i = 0) := by
  intro rest
  induction rest with
  | nil =>
    intro s s' hrun hmem h1 h2
    simp only [runList, Except.ok.injEq] at hrun
    subst hrun
    exact ⟨h1, h2⟩
  | cons t rest ih =>
    intro s s' hrun hmem h1 h2
    rw [runList] at hrun
    cases hst : stepT ts s t with
    | ok s₁ =>
      rw [hst] at hrun
      obtain ⟨g1, g2⟩ := stepT_inv hst (hmem t (List.mem_cons_self t rest)) h1 h2
      exact ih s₁ s' hrun (fun u hu => hmem u (List.mem_cons_of_mem t hu)) g1 g2
    | error e =>
      rw [hst] at hrun
      exact absurd hrun (by simp)

/-- Sums over two duplicate-free index lists agree when one contains the
other and the summand vanishes off the smaller one. -/
theorem qsum_congr_zero {L M : List String} (f : String → ℚ) (hndL : L.Nodup)
    (hndM : M.Nodup) (hsub : ∀ i ∈ M, i ∈ L) (hzero : ∀ i, i ∉ M → f i = 0) :
    qsum L f = qsum M f := by
  unfold qsum
  rw [← List.sum_toFinset f hndL, ← List.sum_toFinset f hndM]
  refine (Finset.sum_subset ?_ ?_).symm
  · intro x hx
    exact List.mem_toFinset.mpr (hsub x (List.mem_toFinset.mp hx))
  · intro x _ hxM
    exact hzero x (fun hmem => hxM (List.mem_toFinset.mpr hmem))

/-! Read isolation: a state with another key's queue and pending list
overwritten is indistinguishable to the processing of this key's event. -/

theorem maskOther_hGet {s : EngineState} {k : LotKey} {v : List Lot}
    {w : List Pending} {k' : LotKey} (h : k' ≠ k) :
    hGet (maskOther s k v w).holdings k' = hGet s.holdings k' := by
  simp [maskOther, hGet, lookupD_setK_ne _ _ _ h]

theorem maskOther_pGet {s : EngineState} {k : LotKey} {v : List Lot}
    {w : List Pending} {k' : LotKey} (h : k' ≠ k) :
    pGet (maskOther s k v w).pending k' = pGet s.pending k' := by
  simp [maskOther, pGet, lookupD_setK_ne _ _ _ h]

theorem resolvedQty_maskOther {s : EngineState} {k : LotKey} {v : List Lot}
    {w : List Pending} {t : Transaction} (h : get_key t ≠ k) :
    resolvedQty (maskOther s k v w) t = resolvedQty s t := by
  simp [resolvedQty, maskOther_hGet h]

theorem replacementQty_maskOther (ts : List Transaction) {s : EngineState}
    {k : LotKey} {v : List Lot} {w : List Pending} {t : Transaction}
    (h : get_key t ≠ k) :
    replacementQty ts (maskOther s k v w) t = replacementQty ts s t := by
  simp [replacementQty, resolvedQty_maskOther h, maskOther_hGet h]

theorem closeChunks_maskOther {key : LotKey} (d : ℤ) (qty amount : ℚ)
    {s : EngineState} {k : LotKey} {v : List Lot} {w : List Pending}
    (h : key ≠ k) :
    closeChunks key d qty amount (maskOther s k v w) = closeChunks key d qty amount s := by
  simp [closeChunks, maskOther_hGet h]

theorem closeLots_maskOther {key : LotKey} (d : ℤ) (qty amount : ℚ)
    {s : EngineState} {k : LotKey} {v : List Lot} {w : List Pending}
    (h : key ≠ k) :
    closeLots key d qty amount (maskOther s k v w) = closeLots key d qty amount s := by
  simp [closeLots, maskOther_hGet h]

theorem stepT_maskOther (ts : List Transaction) (s : EngineState) (t : Transaction)
    (k : LotKey) (v : List Lot) (w : List Pending) (h : k ≠ get_key t) :
    Except.map (observables t) (stepT ts (maskOther s k v w) t) =
      Except.map (observables t) (stepT ts s t) := by
  have h' : get_key t ≠ k := Ne.symm h
  have hmH : ∀ k', k' ≠ k → hGet (maskOther s k v w).holdings k' = hGet s.holdings k' :=
    fun k' hk => maskOther_hGet hk
  by_cases hb : t.is_buy = true
  · simp only [stepT]
    rw [if_pos hb, if_pos hb]
    by_cases hq : t.quantity = 0
    · simp [processBuy, hq]
    · simp only [processBuy, if_neg hq, Except.map]
      simp only [observables, processBuyOk, hGet, pGet, lookupD_setK_self, Prod.mk.injEq]
      rw [show (maskOther s k v w).pending = setK s.pending k w from rfl,
        lookupD_setK_ne _ _ _ h',
        show (maskOther s k v w).holdings = setK s.holdings k v from rfl,
        lookupD_setK_ne _ _ _ h']
      simp [maskOther]
  · by_cases hcl : (t.is_sell || (t.trans_type == "OEXP")) = true
    · have hclose : t.is_sell = true ∨ t.trans_type = "OEXP" := by
        simpa [Bool.or_eq_true, beq_iff_eq] using hcl
      rw [stepT_close ts _ hclose, stepT_close ts s hclose,
        resolvedQty_maskOther h', replacementQty_maskOther ts h']
      unfold settleClose
      by_cases hq : resolvedQty s t = 0
      · rw [if_pos hq, if_pos hq]
      · rw [if_neg hq, if_neg hq]
        simp only [Except.map, Except.ok.injEq]
        simp only [observables, Prod.mk.injEq]
        refine ⟨?_, ?_, ?_, ?_, ?_, ?_, ?_, ?_, ?_, ?_, ?_, ?_, ?_⟩
        · rw [hGet, hGet, settleCloseOk_holdings, settleCloseOk_holdings,
            lookupD_setK_self, lookupD_setK_self, closeLots_maskOther _ _ _ h']
        · rw [settleCloseOk_pending_self, settleCloseOk_pending_self,
            closeChunks_maskOther _ _ _ h', maskOther_pGet h']
        · rw [settleCloseOk_realized_gains_shape, settleCloseOk_realized_gains_shape,
            closeChunks_maskOther _ _ _ h']
          all_goals rfl
        · rw [settleCloseOk_realized_losses_shape, settleCloseOk_realized_losses_shape,
            closeChunks_maskOther _ _ _ h']
          all_goals rfl
        · rw [settleCloseOk_disallowed_losses_shape, settleCloseOk_disallowed_losses_shape,
            closeChunks_maskOther _ _ _ h']
          all_goals rfl
        · rw [settleCloseOk_gross_sales, settleCloseOk_gross_sales]
          all_goals rfl
        · rw [settleCloseOk_gross_cost_basis, settleCloseOk_gross_cost_basis,
            closeChunks_maskOther _ _ _ h']
          all_goals rfl
        · rw [settleCloseOk_long_term_gain, settleCloseOk_long_term_gain,
            closeChunks_maskOther _ _ _ h']
          all_goals rfl
        · rw [settleCloseOk_short_term_gain, settleCloseOk_short_term_gain,
            closeChunks_maskOther _ _ _ h']
          all_goals rfl
        · rw [settleCloseOk_gross_long_term_sales, settleCloseOk_gross_long_term_sales,
            closeChunks_maskOther _ _ _ h']
          all_goals rfl
        · rw [settleCloseOk_gross_short_term_sales, settleCloseOk_gross_short_term_sales,
            closeChunks_maskOther _ _ _ h']
          all_goals rfl
        · rw [settleCloseOk_gross_long_term_cost_basis, settleCloseOk_gross_long_term_cost_basis,
            closeChunks_maskOther _ _ _ h']
          all_goals rfl
        · rw [settleCloseOk_gross_short_term_cost_basis, settleCloseOk_gross_short_term_cost_basis,
            closeChunks_maskOther _ _ _ h']
          all_goals rfl
    · simp only [stepT]
      rw [if_neg hb, if_neg hb, if_neg hcl, if_neg hcl]
      simp only [Except.map, observables, Prod.mk.injEq]
      simp [observables, maskOther, hGet, pGet, lookupD_setK_ne _ _ _ h']

/-- Claim C1: in the buy-100-for-5000 (day 0), sell-100-for-4000 (day 10),
buy-100-for-4500 (day 20) sequence under one key, the $1000 loss is fully
deferred: realized losses stay 0, disallowed losses become 1000, and the
day-20 buy absorbs the pending deferral, creating its lot at per-unit price
55 with total cost 5500. -/
theorem claim1_wash_sale_deferral :
    (runEngine exC1).map (fun s =>
      (s.realized_losses "A", s.disallowed_losses "A",
        hGet s.holdings ("A", KeyId.stock), pGet s.pending ("A", KeyId.stock))) =
    Except.ok (0, 1000, [⟨100, 55, 20, false, 0, 5500⟩], []) := by
  norm_num +decide [runEngine, runList, stepT, processBuy, processBuyOk, settleClose,
    settleCloseOk, get_key, Transaction.is_buy, Transaction.is_sell, Transaction.is_option,
    resolvedQty, replacementQty, currentHoldingWash, openQty, futureReplacementSell,
    futureReplacementOexp, applyPending, applyBreakdowns, applyChunk, consumeFIFO,
    chunkBasisSum, qsum, qabs, qmin, addAt, lookupD, setK, hGet, pGet, initState,
    expMarker, Except.map, exC1]

/-- Claim C4: after buying 10 units at $10 and 10 units at $20 under one
key, selling 15 consumes all of the first lot and 5 of the second (FIFO),
giving the sale a cost basis of exactly $200 and leaving a single lot of 5
units at $20. -/
theorem claim4_fifo_consumption :
    (runEngine exC4).map (fun s =>
      (s.gross_cost_basis "A", hGet s.holdings ("A", KeyId.stock))) =
    Except.ok (200, [⟨5, 20, 1, false, 0, 100⟩]) := by
  norm_num +decide [runEngine, runList, stepT, processBuy, processBuyOk, settleClose,
    settleCloseOk, get_key, Transaction.is_buy, Transaction.is_sell, Transaction.is_option,
    resolvedQty, replacementQty, currentHoldingWash, openQty, futureReplacementSell,
    futureReplacementOexp, applyPending, applyBreakdowns, applyChunk, consumeFIFO,
    chunkBasisSum, qsum, qabs, qmin, addAt, lookupD, setK, hGet, pGet, initState,
    expMarker, Except.map, exC4]

/-- Claim C3: the expiration-branch forward scan compares the OEXP row's raw
description (marker text still present), so a BTO of the very same contract
(same key, strictly within the following 30 days) is not counted as
replacement and the expiration loss is realized instead of deferred. -/
theorem claim3_oexp_replacement_missed :
    get_key exC3oexp = get_key exC3bto2 ∧
    exC3bto2.is_buy = true ∧
    exC3oexp.date < exC3bto2.date ∧
    exC3bto2.date ≤ exC3oexp.date + 30 ∧
    futureReplacementOexp exC3 exC3oexp = 0 ∧
    (runEngine exC3).map (fun s =>
      (s.realized_losses "AAPL", s.disallowed_losses "AAPL")) =
      Except.ok (-500, 0) := by
  refine ⟨by decide, by decide, by decide, by decide, ?_, ?_⟩
  · norm_num +decide [futureReplacementOexp, qsum, Transaction.is_buy,
      Transaction.is_option, exC3, exC3bto, exC3oexp, exC3bto2]
  · norm_num +decide [runEngine, runList, stepT, processBuy, processBuyOk, settleClose,
      settleCloseOk, get_key, Transaction.is_buy, Transaction.is_sell, Transaction.is_option,
      resolvedQty, replacementQty, currentHoldingWash, openQty, futureReplacementSell,
      futureReplacementOexp, applyPending, applyBreakdowns, applyChunk, consumeFIFO,
      chunkBasisSum, qsum, qabs, qmin, addAt, lookupD, setK, hGet, pGet, initState,
      expMarker, startsList, pyStrip, Except.map, exC3, exC3bto, exC3oexp, exC3bto2]

/-- Claim C10: a BCXL transaction is selected by the query but matches no
processing branch; the step returns the state unchanged, so every lot queue,
pending list and accumulator is untouched. -/
theorem claim10_bcxl_noop (ts : List Transaction) (s : EngineState) (t : Transaction)
    (h : t.trans_type = "BCXL") : stepT ts s t = Except.ok s := by
  have hb : t.is_buy = false := by simp [Transaction.is_buy, h]
  have hsl : t.is_sell = false := by simp [Transaction.is_sell, h]
  simp [stepT, hb, hsl, h]

theorem claim10_witness :
    bcxlT.trans_type = "BCXL" ∧ stepT [] initState bcxlT = Except.ok initState :=
  ⟨rfl, claim10_bcxl_noop [] initState bcxlT rfl⟩

/-- Claim C6: a closing event with positive quantity on a key with no open
lots consumes nothing, derives a zero cost basis, treats the full proceeds
as a realized gain for its instrument, and does not fail. -/
theorem claim6_empty_lots_all_gain (ts : List Transaction) (s : EngineState)
    (t : Transaction) (hclose : t.is_sell = true ∨ t.trans_type = "OEXP")
    (hempty : hGet s.holdings (get_key t) = []) (hq : 0 < t.quantity) :
    closeChunks (get_key t) t.date t.quantity t.amount s = [] ∧
    netGainLoss s t = qabs t.amount ∧
    ∃ s', stepT ts s t = Except.ok s' ∧
      s'.realized_gains t.instrument = s.realized_gains t.instrument + qabs t.amount ∧
      s'.realized_losses = s.realized_losses ∧
      s'.gross_cost_basis t.instrument = s.gross_cost_basis t.instrument := by
  have hq0 : t.quantity ≠ 0 := ne_of_gt hq
  have hrq : resolvedQty s t = t.quantity := resolvedQty_of_ne s hq0
  have hchunks : closeChunks (get_key t) t.date t.quantity t.amount s = [] := by
    rw [closeChunks, hempty]
    simp [consumeFIFO]
  have hnet : netGainLoss s t = qabs t.amount := by
    rw [netGainLoss, hrq, hempty]
    simp [consumeFIFO, chunkBasisSum, qsum]
  refine ⟨hchunks, hnet, ?_⟩
  rw [stepT_close ts s hclose, hrq, settleClose_ok _ _ _ _ _ _ hq0]
  have hnn : ¬ (qabs t.amount -
      chunkBasisSum (closeChunks (get_key t) t.date t.quantity t.amount s) < 0) := by
    rw [hchunks]
    simpa [chunkBasisSum, qsum] using qabs_nonneg t.amount
  obtain ⟨hgains, hlosses, hdis, hpend⟩ := settleCloseOk_of_gain t.instrument (get_key t)
    t.date t.quantity t.amount (replacementQty ts s t) s hnn
  refine ⟨_, rfl, ?_, ?_, ?_⟩
  · rw [hgains, addAt_self, hchunks]
    simp [chunkBasisSum, qsum]
  · exact hlosses
  · rw [settleCloseOk_gross_cost_basis, addAt_self, hchunks]
    simp [chunkBasisSum, qsum]

theorem claim6_witness :
    (sellC6.is_sell = true ∨ sellC6.trans_type = "OEXP") ∧
    hGet initState.holdings (get_key sellC6) = [] ∧
    0 < sellC6.quantity ∧
    (closeChunks (get_key sellC6) sellC6.date sellC6.quantity sellC6.amount initState = [] ∧
     netGainLoss initState sellC6 = qabs sellC6.amount ∧
     ∃ s', stepT [] initState sellC6 = Except.ok s' ∧
       s'.realized_gains sellC6.instrument =
         initState.realized_gains sellC6.instrument + qabs sellC6.amount ∧
       s'.realized_losses = initState.realized_losses ∧
       s'.gross_cost_basis sellC6.instrument =
         initState.gross_cost_basis sellC6.instrument) :=
  ⟨Or.inl (by decide), rfl, by norm_num [sellC6],
    claim6_empty_lots_all_gain [] initState sellC6 (Or.inl (by decide)) rfl
      (by norm_num [sellC6])⟩

/-- Claim C2: a closing event with a net loss and positive replacement
quantity defers exactly `min(event_quantity, replacement_qty)` units at
`loss_per_share = |net| / event_quantity`: the disallowed total grows by
`deferred × loss_per_share`, the realized losses grow by
`net + deferred × loss_per_share` (zero in the full-deferral case), and the
deferral is queued on the event's key. -/
theorem claim2_wash_deferral_amounts (ts : List Transaction) (s : EngineState)
    (t : Transaction) (hclose : t.is_sell = true ∨ t.trans_type = "OEXP")
    (hq : 0 < resolvedQty s t) (hnet : netGainLoss s t < 0)
    (hrepl : 0 < replacementQty ts s t) :
    ∃ s', stepT ts s t = Except.ok s' ∧
      s'.disallowed_losses t.instrument = s.disallowed_losses t.instrument +
        qmin (resolvedQty s t) (replacementQty ts s t) *
          ((-(netGainLoss s t)) / resolvedQty s t) ∧
      s'.realized_losses t.instrument = s.realized_losses t.instrument +
        (netGainLoss s t + qmin (resolvedQty s t) (replacementQty ts s t) *
          ((-(netGainLoss s t)) / resolvedQty s t)) ∧
      pGet s'.pending (get_key t) = pGet s.pending (get_key t) ++
        [⟨qmin (resolvedQty s t) (replacementQty ts s t),
          (-(netGainLoss s t)) / resolvedQty s t, t.date + 30⟩] := by
  have hq0 : resolvedQty s t ≠ 0 := ne_of_gt hq
  have hNG : netGainLoss s t = qabs t.amount -
      chunkBasisSum (closeChunks (get_key t) t.date (resolvedQty s t) t.amount s) := by
    rw [netGainLoss, closeChunks]
  have hnet' : qabs t.amount -
      chunkBasisSum (closeChunks (get_key t) t.date (resolvedQty s t) t.amount s) < 0 := by
    rw [← hNG]
    exact hnet
  rw [stepT_close ts s hclose, settleClose_ok _ _ _ _ _ _ hq0]
  obtain ⟨hdis, hpend, hgains, hloss⟩ := settleCloseOk_of_defer t.instrument (get_key t)
    t.date (resolvedQty s t) t.amount (replacementQty ts s t) s hnet' hrepl
  refine ⟨_, rfl, ?_, ?_, ?_⟩
  · rw [hdis, addAt_self, hNG]
  · by_cases hpart : 0 < resolvedQty s t - qmin (resolvedQty s t) (replacementQty ts s t)
    · rw [hloss, if_pos hpart, addAt_self, hNG]
    · rw [hloss, if_neg hpart]
      have hmin : qmin (resolvedQty s t) (replacementQty ts s t) = resolvedQty s t :=
        le_antisymm (qmin_le_left _ _) (by linarith [not_lt.mp hpart])
      have hcancel : resolvedQty s t * ((-(netGainLoss s t)) / resolvedQty s t) =
          -(netGainLoss s t) := by
        rw [mul_comm]
        exact div_mul_cancel₀ _ hq0
      rw [hmin, hcancel]
      ring
  · rw [hNG, hpend, pGet, lookupD_setK_self]

theorem claim2_witness :
    (sellC2.is_sell = true ∨ sellC2.trans_type = "OEXP") ∧
    0 < resolvedQty stateLot100 sellC2 ∧
    netGainLoss stateLot100 sellC2 < 0 ∧
    0 < replacementQty tsC2 stateLot100 sellC2 ∧
    (∃ s', stepT tsC2 stateLot100 sellC2 = Except.ok s' ∧
      s'.disallowed_losses sellC2.instrument =
        stateLot100.disallowed_losses sellC2.instrument +
        qmin (resolvedQty stateLot100 sellC2) (replacementQty tsC2 stateLot100 sellC2) *
          ((-(netGainLoss stateLot100 sellC2)) / resolvedQty stateLot100 sellC2) ∧
      s'.realized_losses sellC2.instrument =
        stateLot100.realized_losses sellC2.instrument +
        (netGainLoss stateLot100 sellC2 +
          qmin (resolvedQty stateLot100 sellC2) (replacementQty tsC2 stateLot100 sellC2) *
            ((-(netGainLoss stateLot100 sellC2)) / resolvedQty stateLot100 sellC2)) ∧
      pGet s'.pending (get_key sellC2) = pGet stateLot100.pending (get_key sellC2) ++
        [⟨qmin (resolvedQty stateLot100 sellC2) (replacementQty tsC2 stateLot100 sellC2),
          (-(netGainLoss stateLot100 sellC2)) / resolvedQty stateLot100 sellC2,
          sellC2.date + 30⟩]) :=
  ⟨Or.inl (by decide),
    by norm_num +decide [resolvedQty, sellC2, stateLot100, initState, Transaction.is_sell],
    by norm_num +decide [netGainLoss, resolvedQty, sellC2, stateLot100, initState,
      get_key, Transaction.is_option, Transaction.is_sell, consumeFIFO, chunkBasisSum,
      qsum, qabs, qmin, hGet, lookupD],
    by norm_num +decide [replacementQty, resolvedQty, sellC2, stateLot100, tsC2, initState,
      get_key, Transaction.is_option, Transaction.is_sell, Transaction.is_buy,
      currentHoldingWash, futureReplacementSell, futureReplacementOexp, qsum, qmin,
      hGet, lookupD],
    claim2_wash_deferral_amounts tsC2 stateLot100 sellC2 (Or.inl (by decide))
      (by norm_num +decide [resolvedQty, sellC2, stateLot100, initState, Transaction.is_sell])
      (by norm_num +decide [netGainLoss, resolvedQty, sellC2, stateLot100, initState,
        get_key, Transaction.is_option, Transaction.is_sell, consumeFIFO, chunkBasisSum,
        qsum, qabs, qmin, hGet, lookupD])
      (by norm_num +decide [replacementQty, resolvedQty, sellC2, stateLot100, tsC2, initState,
        get_key, Transaction.is_option, Transaction.is_sell, Transaction.is_buy,
        currentHoldingWash, futureReplacementSell, futureReplacementOexp, qsum, qmin,
        hGet, lookupD])⟩

/-- Claim C5: a closing event splits its consumed chunks by the 365-day
holding period: chunks held at least 365 days accumulate under the
long-term gain, gross-sales and cost-basis totals, the rest under the
short-term totals; each chunk's proceeds are proportional to its share of
the event quantity and its cost basis is its quantity times the price of
the lot it came from. -/
theorem claim5_holding_period_split (ts : List Transaction) (s : EngineState)
    (t : Transaction) (hclose : t.is_sell = true ∨ t.trans_type = "OEXP")
    (hq : resolvedQty s t ≠ 0) :
    ∃ s', stepT ts s t = Except.ok s' ∧
      s'.long_term_gain t.instrument = s.long_term_gain t.instrument +
        sumBy isLongTerm (fun c => c.proceeds - c.basis)
          (closeChunks (get_key t) t.date (resolvedQty s t) t.amount s) ∧
      s'.short_term_gain t.instrument = s.short_term_gain t.instrument +
        sumBy (fun c => !isLongTerm c) (fun c => c.proceeds - c.basis)
          (closeChunks (get_key t) t.date (resolvedQty s t) t.amount s) ∧
      s'.gross_long_term_sales t.instrument = s.gross_long_term_sales t.instrument +
        sumBy isLongTerm (fun c => c.proceeds)
          (closeChunks (get_key t) t.date (resolvedQty s t) t.amount s) ∧
      s'.gross_short_term_sales t.instrument = s.gross_short_term_sales t.instrument +
        sumBy (fun c => !isLongTerm c) (fun c => c.proceeds)
          (closeChunks (get_key t) t.date (resolvedQty s t) t.amount s) ∧
      s'.gross_long_term_cost_basis t.instrument =
        s.gross_long_term_cost_basis t.instrument +
        sumBy isLongTerm (fun c => c.basis)
          (closeChunks (get_key t) t.date (resolvedQty s t) t.amount s) ∧
      s'.gross_short_term_cost_basis t.instrument =
        s.gross_short_term_cost_basis t.instrument +
        sumBy (fun c => !isLongTerm c) (fun c => c.basis)
          (closeChunks (get_key t) t.date (resolvedQty s t) t.amount s) ∧
      ∀ c ∈ closeChunks (get_key t) t.date (resolvedQty s t) t.amount s,
        c.proceeds = c.qty * (qabs t.amount / resolvedQty s t) ∧
        ∃ lot ∈ hGet s.holdings (get_key t), c.basis = c.qty * lot.price ∧
          c.hp = t.date - lot.date := by
  rw [stepT_close ts s hclose, settleClose_ok _ _ _ _ _ _ hq]
  refine ⟨_, rfl, ?_, ?_, ?_, ?_, ?_, ?_, ?_⟩
  · rw [settleCloseOk_long_term_gain, addAt_self]
  · rw [settleCloseOk_short_term_gain, addAt_self]
  · rw [settleCloseOk_gross_long_term_sales, addAt_self]
  · rw [settleCloseOk_gross_short_term_sales, addAt_self]
  · rw [settleCloseOk_gross_long_term_cost_basis, addAt_self]
  · rw [settleCloseOk_gross_short_term_cost_basis, addAt_self]
  · intro c hc
    rw [closeChunks] at hc
    exact consumeFIFO_chunks _ _ _ _ c hc

theorem claim5_witness :
    (sellC5.is_sell = true ∨ sellC5.trans_type = "OEXP") ∧
    resolvedQty stateC5 sellC5 ≠ 0 ∧
    (∃ s', stepT [] stateC5 sellC5 = Except.ok s' ∧
      s'.long_term_gain sellC5.instrument = stateC5.long_term_gain sellC5.instrument +
        sumBy isLongTerm (fun c => c.proceeds - c.basis)
          (closeChunks (get_key sellC5) sellC5.date (resolvedQty stateC5 sellC5)
            sellC5.amount stateC5) ∧
      s'.short_term_gain sellC5.instrument = stateC5.short_term_gain sellC5.instrument +
        sumBy (fun c => !isLongTerm c) (fun c => c.proceeds - c.basis)
          (closeChunks (get_key sellC5) sellC5.date (resolvedQty stateC5 sellC5)
            sellC5.amount stateC5) ∧
      s'.gross_long_term_sales sellC5.instrument =
        stateC5.gross_long_term_sales sellC5.instrument +
        sumBy isLongTerm (fun c => c.proceeds)
          (closeChunks (get_key sellC5) sellC5.date (resolvedQty stateC5 sellC5)
            sellC5.amount stateC5) ∧
      s'.gross_short_term_sales sellC5.instrument =
        stateC5.gross_short_term_sales sellC5.instrument +
        sumBy (fun c => !isLongTerm c) (fun c => c.proceeds)
          (closeChunks (get_key sellC5) sellC5.date (resolvedQty stateC5 sellC5)
            sellC5.amount stateC5) ∧
      s'.gross_long_term_cost_basis sellC5.instrument =
        stateC5.gross_long_term_cost_basis sellC5.instrument +
        sumBy isLongTerm (fun c => c.basis)
          (closeChunks (get_key sellC5) sellC5.date (resolvedQty stateC5 sellC5)
            sellC5.amount stateC5) ∧
      s'.gross_short_term_cost_basis sellC5.instrument =
        stateC5.gross_short_term_cost_basis sellC5.instrument +
        sumBy (fun c => !isLongTerm c) (fun c => c.basis)
          (closeChunks (get_key sellC5) sellC5.date (resolvedQty stateC5 sellC5)
            sellC5.amount stateC5) ∧
      ∀ c ∈ closeChunks (get_key sellC5) sellC5.date (resolvedQty stateC5 sellC5)
          sellC5.amount stateC5,
        c.proceeds = c.qty * (qabs sellC5.amount / resolvedQty stateC5 sellC5) ∧
        ∃ lot ∈ hGet stateC5.holdings (get_key sellC5), c.basis = c.qty * lot.price ∧
          c.hp = sellC5.date - lot.date) :=
  ⟨Or.inl (by decide),
    by norm_num +decide [resolvedQty, sellC5, stateC5, initState, Transaction.is_sell],
    claim5_holding_period_split [] stateC5 sellC5 (Or.inl (by decide))
      (by norm_num +decide [resolvedQty, sellC5, stateC5, initState, Transaction.is_sell])⟩

/-- Claim C7 counterexample: a buy whose quantity string does not parse is
zeroed and then divides by that zero quantity, so the run aborts with an
uncaught error instead of continuing - the claim's "processing continues
non-fatally" is false as stated. -/
theorem claim7_counterexample :
    calculate_stock_gains_and_losses [rawBuyBad] = Except.error "ZeroDivisionError" := by
  norm_num +decide [calculate_stock_gains_and_losses, runEngine, runList, stepT,
    processBuy, Transaction.is_buy, resolveRaw, rawBuyBad, Except.map, initState,
    Option.getD]

/-- Claim C7 as amended: an unparseable quantity is resolved to zero without
an error at parse time; processing the transaction then continues
non-fatally when it is an OEXP whose key has nonzero open quantity (the case
the zero-quantity convention is designed for), while a Buy or Sell with the
zeroed quantity raises an uncaught ZeroDivisionError (see the
counterexample). -/
theorem claim7_amended_parse_to_zero (r : RawTransaction) (ts : List Transaction)
    (s : EngineState) (hp : r.quantity_parse = none) :
    (resolveRaw r).quantity = 0 ∧
    (r.trans_type = "OEXP" →
      openQty (hGet s.holdings (get_key (resolveRaw r))) ≠ 0 →
      ∃ s', stepT ts s (resolveRaw r) = Except.ok s') := by
  have hq : (resolveRaw r).quantity = 0 := by simp [resolveRaw, hp]
  refine ⟨hq, fun hoexp hopen => ?_⟩
  have htt : (resolveRaw r).trans_type = "OEXP" := by simp [resolveRaw, hoexp]
  rw [stepT_close ts s (Or.inr htt)]
  have hrq : resolvedQty s (resolveRaw r) =
      openQty (hGet s.holdings (get_key (resolveRaw r))) := by
    simp [resolvedQty, htt, hq]
  rw [hrq, settleClose_ok _ _ _ _ _ _ hopen]
  exact ⟨_, rfl⟩

theorem claim7_witness :
    rawOexpBad.quantity_parse = none ∧
    (resolveRaw rawOexpBad).quantity = 0 ∧
    rawOexpBad.trans_type = "OEXP" ∧
    openQty (hGet stateC7.holdings (get_key (resolveRaw rawOexpBad))) ≠ 0 ∧
    (∃ s', stepT [] stateC7 (resolveRaw rawOexpBad) = Except.ok s') := by
  have hopen : openQty (hGet stateC7.holdings (get_key (resolveRaw rawOexpBad))) ≠ 0 := by
    norm_num +decide [openQty, qsum, hGet, lookupD, stateC7, initState, get_key,
      resolveRaw, rawOexpBad, Transaction.is_option, expMarker, startsList, pyStrip]
  have h := claim7_amended_parse_to_zero rawOexpBad [] stateC7 rfl
  exact ⟨rfl, h.1, rfl, hopen, h.2 rfl hopen⟩

/-- Claim C8: the scalar the computation returns is the sum over all
instruments of realized gains plus realized losses; deferred losses and the
cost basis of still-open lots do not contribute.  `L` is any duplicate-free
list covering every instrument in the input. -/
theorem claim8_return_value (rs : List RawTransaction) (L : List String)
    (hnd : L.Nodup) (hL : ∀ r ∈ rs, r.instrument ∈ L) :
    calculate_stock_gains_and_losses rs =
      (runEngine (rs.map resolveRaw)).map
        (fun s => qsum L (fun i => s.realized_gains i + s.realized_losses i)) := by
  unfold calculate_stock_gains_and_losses
  cases hrun : runEngine (rs.map resolveRaw) with
  | error e => rfl
  | ok s =>
    simp only [Except.map, Except.ok.injEq]
    rw [runEngine] at hrun
    obtain ⟨h1, h2⟩ := runList_inv (L := L) (rs.map resolveRaw) initState s hrun
      (by
        intro u hu
        obtain ⟨r, hr, hru⟩ := List.mem_map.mp hu
        subst hru
        simpa [resolveRaw] using hL r hr)
      (by simp [initState, instrumentsOf])
      (fun i _ => ⟨rfl, rfl⟩)
    rw [totalGainLoss]
    exact (qsum_congr_zero _ hnd (List.nodup_dedup _) h1
      (fun i hi => by
        rcases h2 i hi with ⟨hg, hl2⟩
        rw [hg, hl2, add_zero])).symm

theorem claim8_witness :
    (["A"] : List String).Nodup ∧
    (∀ r ∈ rawC8, r.instrument ∈ (["A"] : List String)) ∧
    calculate_stock_gains_and_losses rawC8 =
      (runEngine (rawC8.map resolveRaw)).map
        (fun s => qsum ["A"] (fun i => s.realized_gains i + s.realized_losses i)) :=
  ⟨by decide, by decide, claim8_return_value rawC8 ["A"] (by decide) (by decide)⟩

/-- Claim C9: lots and pending deferrals are partitioned by key.  First, a
step never modifies the lot queue or pending list of a key other than its
own.  Second, two option transactions (outside the OEXP rewriting) with
different descriptions have different keys, so two contracts with different
descriptions never share a queue or deferral list.  Third, a step never
reads another key's queue or pending list: overwriting them arbitrarily
changes nothing the event observes or produces. -/
theorem claim9_key_isolation :
    (∀ (ts : List Transaction) (s s' : EngineState) (t : Transaction) (k : LotKey),
      stepT ts s t = Except.ok s' → k ≠ get_key t →
      hGet s'.holdings k = hGet s.holdings k ∧ pGet s'.pending k = pGet s.pending k) ∧
    (∀ t u : Transaction, t.is_option = true → u.is_option = true →
      t.trans_type ≠ "OEXP" → u.trans_type ≠ "OEXP" →
      t.description ≠ u.description → get_key t ≠ get_key u) ∧
    (∀ (ts : List Transaction) (s : EngineState) (t : Transaction) (k : LotKey)
      (v : List Lot) (w : List Pending), k ≠ get_key t →
      Except.map (observables t) (stepT ts (maskOther s k v w) t) =
        Except.map (observables t) (stepT ts s t)) := by
  refine ⟨?_, ?_, ?_⟩
  · intro ts s s' t k hstep hk
    by_cases hb : t.is_buy = true
    · simp only [stepT] at hstep
      rw [if_pos hb] at hstep
      by_cases hq : t.quantity = 0
      · simp [processBuy, hq] at hstep
      · rw [processBuy, if_neg hq, Except.ok.injEq] at hstep
        subst hstep
        constructor
        · simp [processBuyOk, hGet, lookupD_setK_ne _ _ _ hk]
        · simp [processBuyOk, pGet, lookupD_setK_ne _ _ _ hk]
    · by_cases hcl : (t.is_sell || (t.trans_type == "OEXP")) = true
      · have hclose : t.is_sell = true ∨ t.trans_type = "OEXP" := by
          simpa [Bool.or_eq_true, beq_iff_eq] using hcl
        rw [stepT_close ts s hclose] at hstep
        unfold settleClose at hstep
        by_cases hq : resolvedQty s t = 0
        · rw [if_pos hq] at hstep
          exact absurd hstep (by simp)
        · rw [if_neg hq, Except.ok.injEq] at hstep
          subst hstep
          constructor
          · rw [hGet, hGet, settleCloseOk_holdings, lookupD_setK_ne _ _ _ hk]
          · exact settleCloseOk_pending_ne _ _ _ _ _ _ _ hk
      · simp only [stepT] at hstep
        rw [if_neg hb, if_neg hcl, Except.ok.injEq] at hstep
        subst hstep
        exact ⟨rfl, rfl⟩
  · intro t u ht hu htO huO hdesc heq
    have hbt : (t.trans_type == "OEXP") = false := by
      simp [htO]
    have hbu : (u.trans_type == "OEXP") = false := by
      simp [huO]
    rw [get_key, get_key, if_pos ht, if_pos hu] at heq
    simp only [hbt, hbu, Bool.false_and, if_false, Prod.mk.injEq, KeyId.opt.injEq] at heq
    exact hdesc heq.2
  · intro ts s t k v w hk
    exact stepT_maskOther ts s t k v w hk

theorem claim9_witness :
    (("Y", KeyId.stock) ≠ get_key buyC9 ∧
      stepT [] initState buyC9 = Except.ok (processBuyOk initState buyC9) ∧
      hGet (processBuyOk initState buyC9).holdings ("Y", KeyId.stock) =
        hGet initState.holdings ("Y", KeyId.stock) ∧
      pGet (processBuyOk initState buyC9).pending ("Y", KeyId.stock) =
        pGet initState.pending ("Y", KeyId.stock)) ∧
    (bto1C9.description ≠ bto2C9.description ∧ get_key bto1C9 ≠ get_key bto2C9) ∧
    Except.map (observables buyC9)
        (stepT [] (maskOther initState ("Y", KeyId.stock) [⟨1, 1, 0, false, 0, 1⟩] []) buyC9) =
      Except.map (observables buyC9) (stepT [] initState buyC9) := by
  have hne : ("Y", KeyId.stock) ≠ get_key buyC9 := by decide
  have hstep : stepT [] initState buyC9 = Except.ok (processBuyOk initState buyC9) := by
    norm_num +decide [stepT, Transaction.is_buy, buyC9, processBuy]
  obtain ⟨e1, e2⟩ :=
    claim9_key_isolation.1 [] initState (processBuyOk initState buyC9) buyC9 _ hstep hne
  exact ⟨⟨hne, hstep, e1, e2⟩,
    ⟨by decide, claim9_key_isolation.2.1 bto1C9 bto2C9 (by decide) (by decide) (by decide)
      (by decide) (by decide)⟩,
    claim9_key_isolation.2.2 [] initState buyC9 ("Y", KeyId.stock) [⟨1, 1, 0, false, 0, 1⟩]
      [] hne⟩
